import Mathlib

/-!
Verification development for the per-user memory subsystem of the
Cat-Supremacy bot (`src/memory.py`, plus the memory-clear command in
`src/bot.py`).

Modelling conventions:
* Python text that is sliced or uppercased character-wise (the long-term
  notes and JSON object keys) is modelled as `List Char`, matching
  Python's code-point string semantics; other strings stay `String`.
* Python `float` timestamps are modelled as `ℚ`; all comparisons the code
  performs on them are exact.
* The in-process store (a Python `dict` from user id to `UserMemory`) is
  modelled as an association list with unique keys, with dict assignment
  replacing in place and insertion appending, preserving dict order.
* The JSON layer is modelled at the data level: a parsed file or payload
  is either unparseable, a non-object, or an object whose values are
  well-shaped blobs (each dataclass field present and of its annotated
  type, or absent).  This is the fragment of JSON the code's contracts
  speak to; `json.dump`/`json.load` themselves are a faithful external
  codec.
-/

namespace CatMemory

/-- Tunable from memory.py line 23: per-user rolling window, counted in
user+assistant pairs. -/
def MAX_RECENT_MESSAGES : Nat := 10

/-- Tunable from memory.py line 24: hard cap on the long-term summary text. -/
def MAX_MEMORY_CHARS : Nat := 1000

/-- Tunable from memory.py line 25: auto-prune memories older than this. -/
def MEMORY_TTL_DAYS : Nat := 30

/-- Path of the single JSON backing file (memory.py line 26). -/
def MEMORY_FILE : String := "user_memories.json"

/-- One role-tagged entry of the rolling window, the dict
`\x7b"role": ..., "content": ...\x7d` of memory.py. -/
structure Msg where
  role : String
  content : String
deriving DecidableEq

/-- The per-user record, dataclass `UserMemory` of memory.py lines 30-39. -/
structure UserMemory where
  user_id : Int
  username : String := ""
  recent_messages : List Msg := []
  long_term_notes : List Char := []
  last_seen : ℚ := 0
deriving DecidableEq

/-- memory.py lines 41-46: keep only the latest `MAX_RECENT_MESSAGES` pairs;
the Python slice `l[-max_entries:]` keeps the last `max_entries` entries,
i.e. drops `len - max_entries` from the front. -/
def UserMemory.trim_recent (m : UserMemory) : UserMemory :=
  if MAX_RECENT_MESSAGES * 2 < m.recent_messages.length then
    { m with recent_messages :=
        (List.drop (m.recent_messages.length - MAX_RECENT_MESSAGES * 2)
          m.recent_messages) }
  else m

/-- memory.py lines 48-53: append a user/assistant turn, stamp `last_seen`,
and trim. -/
def UserMemory.add_exchange (m : UserMemory) (user_msg assistant_msg : String)
    (now : ℚ) : UserMemory :=
  UserMemory.trim_recent
    { m with
      recent_messages := m.recent_messages ++
        [⟨"user", user_msg⟩, ⟨"assistant", assistant_msg⟩],
      last_seen := now }

/-- Fold a sequence of exchanges (user text, assistant text, timestamp) over
a record, one `add_exchange` per element. -/
def apply_exchanges (m : UserMemory) (exs : List (String × String × ℚ)) :
    UserMemory :=
  List.foldl (fun acc e => UserMemory.add_exchange acc e.1 e.2.1 e.2.2) m exs

/-- The flat role-tagged entry list that a sequence of exchanges appends
before any trimming. -/
def exchange_entries : List (String × String × ℚ) → List Msg
  | [] => []
  | e :: rest => ⟨"user", e.1⟩ :: ⟨"assistant", e.2.1⟩ :: exchange_entries rest

-- ── List helpers for the rolling-window proofs ─────────────────────────

theorem take_append_take_right (n : Nat) (t u : List α) :
    List.take n (t ++ List.take n u) = List.take n (t ++ u) := by
  rw [List.take_append_eq_append_take, List.take_append_eq_append_take,
    List.take_take]
  congr 1
  have h : min (n - t.length) n = n - t.length :=
    Nat.min_eq_left (Nat.sub_le n t.length)
  rw [h]

theorem take_append_take_left (n : Nat) (u s : List α) :
    List.take n (List.take n u ++ s) = List.take n (u ++ s) := by
  rw [List.take_append_eq_append_take, List.take_append_eq_append_take,
    List.take_take, List.length_take, Nat.min_self]
  congr 2
  omega

theorem rtake_append_rtake (n : Nat) (l s : List α) :
    (l.rtake n ++ s).rtake n = (l ++ s).rtake n := by
  rw [List.rtake_eq_reverse_take_reverse, List.rtake_eq_reverse_take_reverse,
    List.rtake_eq_reverse_take_reverse]
  rw [List.reverse_append, List.reverse_reverse, List.reverse_append]
  rw [take_append_take_right]

theorem rtake_of_length_le {l : List α} {n : Nat} (h : l.length ≤ n) :
    l.rtake n = l := by
  unfold List.rtake
  rw [Nat.sub_eq_zero_of_le h, List.drop_zero]

theorem length_rtake_le (l : List α) (n : Nat) : (l.rtake n).length ≤ n := by
  unfold List.rtake
  rw [List.length_drop]
  omega

theorem length_rtake_eq (l : List α) (n : Nat) :
    (l.rtake n).length = min l.length n := by
  unfold List.rtake
  rw [List.length_drop]
  omega

-- ── Characterisation of trimming and the window invariant ──────────────

theorem trim_recent_recent (m : UserMemory) :
    m.trim_recent.recent_messages =
      m.recent_messages.rtake (MAX_RECENT_MESSAGES * 2) := by
  unfold UserMemory.trim_recent List.rtake
  split
  · rfl
  · rename_i h
    rw [Nat.sub_eq_zero_of_le (by omega), List.drop_zero]

theorem trim_recent_long_term_notes (m : UserMemory) :
    m.trim_recent.long_term_notes = m.long_term_notes := by
  unfold UserMemory.trim_recent
  split <;> rfl

theorem trim_recent_last_seen (m : UserMemory) :
    m.trim_recent.last_seen = m.last_seen := by
  unfold UserMemory.trim_recent
  split <;> rfl

theorem trim_recent_user_id (m : UserMemory) :
    m.trim_recent.user_id = m.user_id := by
  unfold UserMemory.trim_recent
  split <;> rfl

theorem trim_recent_username (m : UserMemory) :
    m.trim_recent.username = m.username := by
  unfold UserMemory.trim_recent
  split <;> rfl

theorem add_exchange_recent (m : UserMemory) (u a : String) (now : ℚ) :
    (m.add_exchange u a now).recent_messages =
      (m.recent_messages ++ [Msg.mk "user" u, Msg.mk "assistant" a]).rtake
        (MAX_RECENT_MESSAGES * 2) := by
  unfold UserMemory.add_exchange
  rw [trim_recent_recent]

theorem exchange_entries_length (exs : List (String × String × ℚ)) :
    (exchange_entries exs).length = 2 * exs.length := by
  induction exs with
  | nil => rfl
  | cons e rest ih => simp [exchange_entries, ih]; omega

theorem apply_exchanges_recent (exs : List (String × String × ℚ)) :
    ∀ m : UserMemory, m.recent_messages.length ≤ MAX_RECENT_MESSAGES * 2 →
      (apply_exchanges m exs).recent_messages =
        (m.recent_messages ++ exchange_entries exs).rtake
          (MAX_RECENT_MESSAGES * 2) := by
  induction exs with
  | nil =>
    intro m hm
    simp only [apply_exchanges, List.foldl_nil, exchange_entries,
      List.append_nil]
    exact (rtake_of_length_le hm).symm
  | cons e rest ih =>
    intro m hm
    have step : apply_exchanges m (e :: rest) =
        apply_exchanges (m.add_exchange e.1 e.2.1 e.2.2) rest := rfl
    rw [step]
    have hlen : (m.add_exchange e.1 e.2.1 e.2.2).recent_messages.length ≤
        MAX_RECENT_MESSAGES * 2 := by
      rw [add_exchange_recent]
      exact length_rtake_le _ _
    rw [ih _ hlen, add_exchange_recent]
    rw [rtake_append_rtake, List.append_assoc]
    simp [exchange_entries]

/-- C1: for every Record satisfying the window invariant (even length, at
most `2 × MAX_TURN_PAIRS` entries — in particular a freshly created Record),
after any sequence of `add_exchange` calls the rolling window still has at
most `MAX_RECENT_MESSAGES * 2 = 20` entries, an even number of them, and the
retained entries are exactly the newest 20 of everything ever appended:
trimming removes only from the oldest end. -/
theorem C1_recent_window_bound (start : UserMemory)
    (exs : List (String × String × ℚ))
    (heven : Even start.recent_messages.length)
    (hle : start.recent_messages.length ≤ MAX_RECENT_MESSAGES * 2) :
    (apply_exchanges start exs).recent_messages.length ≤
        MAX_RECENT_MESSAGES * 2 ∧
    Even (apply_exchanges start exs).recent_messages.length ∧
    (apply_exchanges start exs).recent_messages =
      (start.recent_messages ++ exchange_entries exs).drop
        ((start.recent_messages ++ exchange_entries exs).length -
          MAX_RECENT_MESSAGES * 2) := by
  have hchar := apply_exchanges_recent exs start hle
  refine ⟨?_, ?_, ?_⟩
  · rw [hchar]
    exact length_rtake_le _ _
  · rw [hchar, Nat.even_iff, length_rtake_eq, List.length_append,
      exchange_entries_length]
    rw [Nat.even_iff] at heven
    have h20 : MAX_RECENT_MESSAGES * 2 = 20 := rfl
    omega
  · rw [hchar]
    rfl

/-- Witness for C1 at a singleton exchange list from a fresh record. -/
theorem C1_recent_window_bound_witness :
    (apply_exchanges { user_id := 1 } [("hi", "meow", 5)]).recent_messages.length ≤
        MAX_RECENT_MESSAGES * 2 ∧
    Even (apply_exchanges { user_id := 1 } [("hi", "meow", 5)]).recent_messages.length := by
  have h := C1_recent_window_bound { user_id := 1 } [("hi", "meow", 5)]
    ⟨0, rfl⟩ (by decide)
  exact ⟨h.1, h.2.1⟩

-- ── Long-term notes merge (C2) ─────────────────────────────────────────

/-- memory.py lines 263-270, the notes merge inside
`extract_and_update_memories` (named `merge_notes` after the spec's
operation): when the extracted facts are non-empty and not the NONE
sentinel (compared after `.upper()`, modelled character-wise for ASCII),
append them to the existing notes behind a newline (or use them alone when
the notes are empty) and keep only the first `MAX_MEMORY_CHARS`
characters; otherwise leave the notes unchanged. -/
def merge_notes (notes new_facts : List Char) : List Char :=
  if new_facts ≠ [] ∧ new_facts.map Char.toUpper ≠ "NONE".toList then
    (if notes ≠ [] then notes ++ '\n' :: new_facts else new_facts).take
      MAX_MEMORY_CHARS
  else notes

/-- Modelled from the spec: the unbounded newline-separated concatenation of
accepted facts, with no truncation — the reference value the claim compares
the retained notes against. -/
def merge_unbounded (notes new_facts : List Char) : List Char :=
  if new_facts ≠ [] ∧ new_facts.map Char.toUpper ≠ "NONE".toList then
    if notes ≠ [] then notes ++ '\n' :: new_facts else new_facts
  else notes

theorem merge_notes_take (u nf : List Char) :
    merge_notes (u.take MAX_MEMORY_CHARS) nf =
      (merge_unbounded u nf).take MAX_MEMORY_CHARS := by
  unfold merge_notes merge_unbounded
  by_cases hg : nf ≠ [] ∧ nf.map Char.toUpper ≠ "NONE".toList
  · rw [if_pos hg, if_pos hg]
    by_cases hu : u = []
    · subst hu
      simp
  
    · have h1 : u.take MAX_MEMORY_CHARS ≠ [] := by
        rw [Ne, List.take_eq_nil_iff]
        push_neg
        exact ⟨by decide, hu⟩
      rw [if_pos h1, if_pos hu]
      exact take_append_take_left _ _ _
  · rw [if_neg hg, if_neg hg]

theorem foldl_merge_notes_take (facts : List (List Char)) :
    ∀ u : List Char,
      List.foldl merge_notes (u.take MAX_MEMORY_CHARS) facts =
        (List.foldl merge_unbounded u facts).take MAX_MEMORY_CHARS := by
  induction facts with
  | nil => intro u; simp
  | cons f rest ih =>
    intro u
    simp only [List.foldl_cons]
    rw [merge_notes_take, ih]

/-- C2 counterexample: the sentinel check is case-insensitive
(`new_facts.upper() != "NONE"`), so merging the non-empty string "none"
into notes "x" is a no-op, while the claim as stated demands that any
non-empty facts string other than exactly "NONE" be appended. -/
theorem C2_sentinel_counterexample :
    merge_notes ['x'] ['n', 'o', 'n', 'e'] = ['x'] ∧
    ['x'] ≠ (['x'] ++ '\n' :: ['n', 'o', 'n', 'e']).take MAX_MEMORY_CHARS := by
  decide

/-- C2 (amended): merging facts that are empty — or whose uppercased form is
the sentinel "NONE", the comparison being case-insensitive — leaves the
notes unchanged; merging any other facts string sets the notes to the first
`MAX_MEMORY_CHARS` characters of the old notes, a newline and the new facts
(the new facts alone when the old notes are empty); and after any number of
merges starting from empty notes the retained notes are exactly the first
`MAX_MEMORY_CHARS` characters of the unbounded newline-separated
concatenation, hence at most `MAX_MEMORY_CHARS` long and a prefix of it. -/
theorem C2_merge_notes_amended (facts : List (List Char)) :
    (∀ notes, merge_notes notes [] = notes) ∧
    (∀ notes nf, nf.map Char.toUpper = "NONE".toList →
      merge_notes notes nf = notes) ∧
    (∀ notes nf, nf ≠ [] → nf.map Char.toUpper ≠ "NONE".toList →
      merge_notes notes nf =
        (if notes ≠ [] then notes ++ '\n' :: nf else nf).take
          MAX_MEMORY_CHARS) ∧
    List.foldl merge_notes [] facts =
      (List.foldl merge_unbounded [] facts).take MAX_MEMORY_CHARS ∧
    (List.foldl merge_notes [] facts).length ≤ MAX_MEMORY_CHARS ∧
    List.foldl merge_notes [] facts <+: List.foldl merge_unbounded [] facts := by
  have hfold : List.foldl merge_notes [] facts =
      (List.foldl merge_unbounded [] facts).take MAX_MEMORY_CHARS := by
    have h := foldl_merge_notes_take facts []
    simpa using h
  refine ⟨?_, ?_, ?_, hfold, ?_, ?_⟩
  · intro notes
    simp [merge_notes]
  · intro notes nf h
    unfold merge_notes
    rw [if_neg]
    intro hc
    exact hc.2 h
  · intro notes nf h1 h2
    unfold merge_notes
    rw [if_pos ⟨h1, h2⟩]
  · rw [hfold]
    exact List.length_take_le _ _
  · rw [hfold]
    exact List.take_prefix _ _

/-- Witness for C2 (amended) at concrete notes and facts. -/
theorem C2_merge_notes_amended_witness :
    merge_notes ['h', 'i'] ['n', 'f'] =
      (['h', 'i'] ++ '\n' :: ['n', 'f']).take MAX_MEMORY_CHARS := by
  have h := (C2_merge_notes_amended []).2.2.1 ['h', 'i'] ['n', 'f']
    (by decide) (by decide)
  simpa using h

-- ── In-memory store (memory.py lines 67-79) ────────────────────────────

/-- The process-global `_store : dict[int, UserMemory]`, modelled as an
association list in dict insertion order with unique keys. -/
abbrev Store := List (Int × UserMemory)

/-- Dict lookup `_store.get(uid)`. -/
def findMem? : Store → Int → Option UserMemory
  | [], _ => none
  | p :: rest, uid => if p.1 = uid then some p.2 else findMem? rest uid

/-- Dict assignment `_store[uid] = mem`: replaces in place when the key is
present, otherwise appends (dict insertion order). -/
def storeSet : Store → Int → UserMemory → Store
  | [], uid, mem => [(uid, mem)]
  | p :: rest, uid, mem =>
    if p.1 = uid then (uid, mem) :: rest else p :: storeSet rest uid mem

/-- Dict deletion `del _store[uid]`. -/
def storeDel (s : Store) (uid : Int) : Store :=
  s.filter (fun p => decide (p.1 ≠ uid))

/-- memory.py lines 71-79: get or create the record for a user, updating the
username opportunistically; returns the updated store and the record. -/
def get_user_memory (store : Store) (user_id : Int) (username : String) :
    Store × UserMemory :=
  let mem0 := (findMem? store user_id).getD { user_id := user_id, username := username }
  let mem := if username ≠ "" then { mem0 with username := username } else mem0
  (storeSet store user_id mem, mem)

@[simp] theorem findMem?_storeSet_self (s : Store) (uid : Int)
    (mem : UserMemory) : findMem? (storeSet s uid mem) uid = some mem := by
  induction s with
  | nil => simp [storeSet, findMem?]
  | cons p rest ih =>
    by_cases h : p.1 = uid
    · simp [storeSet, findMem?, h]
    · simp [storeSet, findMem?, h, ih]

theorem findMem?_storeSet_ne (s : Store) (uid uid' : Int) (mem : UserMemory)
    (h : uid' ≠ uid) : findMem? (storeSet s uid mem) uid' = findMem? s uid' := by
  have h' : ¬uid = uid' := fun hc => h hc.symm
  induction s with
  | nil => simp [storeSet, findMem?, h']
  | cons p rest ih =>
    by_cases hp : p.1 = uid
    · subst hp
      simp [storeSet, findMem?, h']
    · simp [storeSet, findMem?, hp, ih]

-- ── C9: add_exchange commutes with the notes merge ─────────────────────

/-- Record-level effect of the notes merge: only `long_term_notes` is
written (memory.py line 270), and only it and the facts are read. -/
def applyMergeNotes (m : UserMemory) (new_facts : List Char) : UserMemory :=
  { m with long_term_notes := merge_notes m.long_term_notes new_facts }

/-- C9: `add_exchange` (writes `recent_messages` and `last_seen`) and the
notes merge of `extract_and_update_memories` (writes `long_term_notes`)
touch disjoint fields, so applying them in either order yields the same
final record. -/
theorem C9_add_exchange_merge_commute (m : UserMemory) (u a : String)
    (now : ℚ) (nf : List Char) :
    applyMergeNotes (m.add_exchange u a now) nf =
      (applyMergeNotes m nf).add_exchange u a now := by
  unfold applyMergeNotes UserMemory.add_exchange UserMemory.trim_recent
  split <;> rfl

-- ── Python str/int codec for JSON object keys ──────────────────────────

/-- Python `str(n)` on a natural number: decimal digits, most significant
first. -/
def pyNatStr (n : Nat) : List Char :=
  if _h : n < 10 then [Nat.digitChar n]
  else pyNatStr (n / 10) ++ [Nat.digitChar (n % 10)]
decreasing_by
  exact Nat.div_lt_self (by omega) (by omega)

/-- Python `str(i)` on an int: optional minus sign then decimal digits. -/
def pyStr (i : Int) : List Char :=
  if i < 0 then '-' :: pyNatStr i.natAbs else pyNatStr i.natAbs

/-- Numeric value of a decimal digit character. -/
def digitVal (c : Char) : Nat := c.toNat - '0'.toNat

/-- Python `int(s)` on a string of decimal digits (no sign).  Python's
`int` also tolerates surrounding whitespace, a leading plus sign and
underscore separators; those forms never arise from `str` output and are
not modelled. -/
def pyNat? (s : List Char) : Option Nat :=
  if s ≠ [] ∧ s.all Char.isDigit then
    some (List.foldl (fun n c => n * 10 + digitVal c) 0 s)
  else none

/-- Python `int(s)` on a possibly minus-signed decimal string; `none`
models the `ValueError` raised on malformed input. -/
def pyInt? (s : List Char) : Option Int :=
  if s.head? = some '-' then (pyNat? s.tail).map (fun n => -(n : Int))
  else (pyNat? s).map (fun n => (n : Int))

theorem digitVal_digitChar {d : Nat} (h : d < 10) :
    digitVal (Nat.digitChar d) = d := by
  interval_cases d <;> decide

theorem isDigit_digitChar {d : Nat} (h : d < 10) :
    (Nat.digitChar d).isDigit = true := by
  interval_cases d <;> decide

theorem pyNatStr_ne_nil (n : Nat) : pyNatStr n ≠ [] := by
  rw [pyNatStr]
  split
  · simp
  · simp

theorem pyNatStr_all_digits (n : Nat) :
    (pyNatStr n).all Char.isDigit = true := by
  induction n using Nat.strong_induction_on with
  | _ n ih =>
    rw [pyNatStr]
    split
    · rename_i h
      simp [isDigit_digitChar h]
    · rename_i h
      rw [List.all_append]
      have hdiv : n / 10 < n := Nat.div_lt_self (by omega) (by omega)
      rw [ih _ hdiv]
      simp [isDigit_digitChar (Nat.mod_lt n (by omega))]

theorem pyNatStr_val (n : Nat) :
    List.foldl (fun acc c => acc * 10 + digitVal c) 0 (pyNatStr n) = n := by
  induction n using Nat.strong_induction_on with
  | _ n ih =>
    rw [pyNatStr]
    split
    · rename_i h
      simp [digitVal_digitChar h]
    · rename_i h
      rw [List.foldl_append]
      have hdiv : n / 10 < n := Nat.div_lt_self (by omega) (by omega)
      rw [ih _ hdiv]
      simp only [List.foldl_cons, List.foldl_nil]
      rw [digitVal_digitChar (Nat.mod_lt n (by omega))]
      omega

theorem pyNat?_pyNatStr (n : Nat) : pyNat? (pyNatStr n) = some n := by
  unfold pyNat?
  rw [if_pos ⟨pyNatStr_ne_nil n, pyNatStr_all_digits n⟩, pyNatStr_val]

theorem pyInt?_pyStr (i : Int) : pyInt? (pyStr i) = some i := by
  unfold pyStr
  by_cases hneg : i < 0
  · rw [if_pos hneg]
    unfold pyInt?
    simp only [List.head?_cons, List.tail_cons, if_pos rfl, pyNat?_pyNatStr]
    have habs : -((i.natAbs : Int)) = i := by omega
    exact congrArg some habs
  · rw [if_neg hneg]
    obtain ⟨c, rest, hc⟩ := List.exists_cons_of_ne_nil (pyNatStr_ne_nil i.natAbs)
    have hdig : c.isDigit = true := by
      have := pyNatStr_all_digits i.natAbs
      rw [hc, List.all_cons] at this
      exact (Bool.and_eq_true_iff.mp this).1
    have hcne : ¬(pyNatStr i.natAbs).head? = some '-' := by
      rw [hc, List.head?_cons]
      intro hcc
      rw [Option.some_inj.mp hcc] at hdig
      exact absurd hdig (by decide)
    unfold pyInt?
    rw [if_neg hcne, pyNat?_pyNatStr]
    have habs : ((i.natAbs : Int)) = i := by omega
    exact congrArg some habs

theorem pyStr_injective (a b : Int) (h : pyStr a = pyStr b) : a = b := by
  have ha := pyInt?_pyStr a
  have hb := pyInt?_pyStr b
  rw [h, hb] at ha
  exact (Option.some_inj.mp ha).symm

-- ── JSON-level blobs and the persistence codec ─────────────────────────

/-- A parsed per-user JSON object, restricted to the well-shaped fragment:
each dataclass field is either absent or carries a value of its annotated
type.  `blob.get(key, default)` is modelled by `Option.getD`, and the
Python membership test `"user_id" in blob` by `Option.isSome`. -/
structure Blob where
  user_id : Option Int := none
  username : Option String := none
  recent_messages : Option (List Msg) := none
  long_term_notes : Option (List Char) := none
  last_seen : Option ℚ := none
deriving DecidableEq

/-- `dataclasses.asdict` on a `UserMemory`: every field present. -/
def asdict (m : UserMemory) : Blob :=
  { user_id := some m.user_id, username := some m.username,
    recent_messages := some m.recent_messages,
    long_term_notes := some m.long_term_notes,
    last_seen := some m.last_seen }

/-- The `UserMemory(...)` constructor call shared by `load_all`,
`import_user_memory` and `import_all_memories`: the record is keyed and
identified by the caller-chosen `user_id`, every other field falls back to
`blob.get`'s default, with the `last_seen` default supplied by the call
site (`0.0` for load and bulk import, `time.time()` for single import). -/
def blobToMem (user_id : Int) (blob : Blob) (last_seen_default : ℚ) :
    UserMemory :=
  { user_id := user_id,
    username := blob.username.getD "",
    recent_messages := blob.recent_messages.getD [],
    long_term_notes := blob.long_term_notes.getD [],
    last_seen := blob.last_seen.getD last_seen_default }

/-- memory.py lines 83-94 (data level): serialise every record keyed by the
stringified user id, in store order. -/
def save_all (store : Store) : List (List Char × Blob) :=
  store.map (fun p => (pyStr p.1, asdict p.2))

/-- State of the backing file as seen by `load_all`: absent, raising inside
`open`/`json.load` (unreadable or syntactically corrupt), parsing to a
non-object (so `data.items()` raises `AttributeError`), or parsing to an
object of key/blob entries in file order. -/
inductive FileData
  | missing
  | unreadable
  | nonDict
  | dict (entries : List (List Char × Blob))
deriving DecidableEq

/-- The entry loop of memory.py lines 106-114, run against the (initially
empty) global store: each entry's key goes through `int(uid_str)`; a
malformed key raises `ValueError`, which the surrounding `except` catches,
ending the loop but keeping every record already assigned. -/
def load_entries : Store → List (List Char × Blob) → Store
  | store, [] => store
  | store, (uid_str, blob) :: rest =>
    match pyInt? uid_str with
    | none => store
    | some uid => load_entries (storeSet store uid (blobToMem uid blob 0)) rest

/-- memory.py lines 97-117: load the backing file into the empty startup
store; a missing file, an unreadable/corrupt file, or a non-object document
all leave the store empty, every failure being caught and logged. -/
def load_all (file : FileData) : Store :=
  match file with
  | .missing => []
  | .unreadable => []
  | .nonDict => []
  | .dict entries => load_entries [] entries

-- ── Retention sweep (memory.py lines 120-131) ──────────────────────────

/-- memory.py lines 120-131: delete every record whose `last_seen` is both
below the cutoff `now - MEMORY_TTL_DAYS * 86400` and strictly positive;
the returned flag records whether `save_all()` was called, which happens
exactly when at least one record was removed. -/
def prune_old_memories (store : Store) (now : ℚ) : Store × Bool :=
  let cutoff := now - (MEMORY_TTL_DAYS * 86400 : ℚ)
  let to_remove := (store.filter
    (fun p => decide (p.2.last_seen < cutoff ∧ 0 < p.2.last_seen))).map Prod.fst
  (List.foldl storeDel store to_remove, !to_remove.isEmpty)

-- ── Export / import (memory.py lines 135-206) ──────────────────────────

/-- memory.py lines 135-140: export one record as its serialised blob, or
`none` when the user has no record. -/
def export_user_memory (store : Store) (user_id : Int) : Option Blob :=
  (findMem? store user_id).map asdict

/-- A single-user import payload: either text `json.loads` rejects, or a
parsed JSON object (the shapes the import contract speaks to). -/
inductive Payload
  | invalid
  | dict (blob : Blob)
deriving DecidableEq

/-- memory.py lines 149-173: single-user import.  Invalid JSON is reported
without touching the store; an object lacking a `user_id` field is
rejected as unrecognised; otherwise the record is rebuilt under the
caller's `user_id` argument with `last_seen` defaulting to the current
time, and the store is saved.  The string result models the returned
status message. -/
def import_user_memory (store : Store) (user_id : Int) (payload : Payload)
    (now : ℚ) : Store × String :=
  match payload with
  | .invalid => (store, "Invalid JSON")
  | .dict blob =>
    if blob.user_id.isSome then
      (storeSet store user_id (blobToMem user_id blob now), "ok")
    else
      (store, "Unrecognized format")

/-- A bulk import payload: invalid JSON, a parsed non-object, or a parsed
object of key/blob entries. -/
inductive BulkPayload
  | invalid
  | nonDict
  | dict (entries : List (List Char × Blob))
deriving DecidableEq

/-- The entry loop of memory.py lines 190-202: a key `int()` rejects is
skipped (`continue`), every other entry is rebuilt under its parsed key
with `last_seen` defaulting to `0.0` and counted. -/
def import_entries : Store → Nat → List (List Char × Blob) → Store × Nat
  | store, count, [] => (store, count)
  | store, count, (uid_str, blob) :: rest =>
    match pyInt? uid_str with
    | none => import_entries store count rest
    | some uid =>
      import_entries (storeSet store uid (blobToMem uid blob 0)) (count + 1) rest

/-- memory.py lines 176-206: bulk import.  Returns the updated store, the
count of imported records, and the error message (empty on success). -/
def import_all_memories (store : Store) (payload : BulkPayload) :
    Store × Nat × String :=
  match payload with
  | .invalid => (store, 0, "Invalid JSON")
  | .nonDict => (store, 0, "Expected a JSON object with user IDs as keys.")
  | .dict entries =>
    let res := import_entries store 0 entries
    (res.1, res.2, "")

-- ── Memory-clear command (bot.py lines 207-213) ────────────────────────

/-- bot.py lines 205-210, the clear branch of the `@cat memory` command:
fetch (or create) the record via `get_user_memory`, then empty
`recent_messages` and `long_term_notes` in place, leaving `last_seen` and
`user_id` untouched. -/
def clear_memory (store : Store) (user_id : Int) (display_name : String) :
    Store :=
  let r := get_user_memory store user_id display_name
  storeSet r.1 user_id
    { r.2 with recent_messages := [], long_term_notes := [] }

-- ── C8: clearing a record keeps its identity ───────────────────────────

/-- C8: on an existing record, the clear command empties `recent_messages`
and `long_term_notes` while leaving `last_seen` and `user_id` untouched,
and an export immediately afterwards still finds a (now-empty) record. -/
theorem C8_clear_keeps_record (store : Store) (uid : Int) (name : String)
    (m : UserMemory) (h : findMem? store uid = some m) :
    ∃ b, export_user_memory (clear_memory store uid name) uid = some b ∧
      b.recent_messages = some [] ∧ b.long_term_notes = some [] ∧
      b.last_seen = some m.last_seen ∧ b.user_id = some m.user_id := by
  unfold clear_memory get_user_memory export_user_memory
  simp only [h, Option.getD_some]
  rw [findMem?_storeSet_self]
  by_cases hn : name ≠ ""
  · rw [if_pos hn]
    exact ⟨_, rfl, rfl, rfl, rfl, rfl⟩
  · rw [if_neg hn]
    exact ⟨_, rfl, rfl, rfl, rfl, rfl⟩

/-- Witness for C8 on a concrete one-user store. -/
theorem C8_clear_keeps_record_witness :
    findMem? [((1 : Int), ({ user_id := 1, last_seen := 42 } : UserMemory))] 1 =
      some { user_id := 1, last_seen := 42 } ∧
    ∃ b, export_user_memory
        (clear_memory [((1 : Int), { user_id := 1, last_seen := 42 })] 1 "cat") 1 =
          some b ∧
      b.recent_messages = some [] ∧ b.long_term_notes = some [] ∧
      b.last_seen = some ((42 : ℚ)) ∧ b.user_id = some ((1 : Int)) := by
  refine ⟨rfl, ?_⟩
  exact C8_clear_keeps_record [(1, { user_id := 1, last_seen := 42 })] 1 "cat"
    { user_id := 1, last_seen := 42 } rfl

-- ── Store lemmas for the retention sweep ───────────────────────────────

theorem findMem?_some_mem {store : Store} {uid : Int} {m : UserMemory}
    (h : findMem? store uid = some m) : (uid, m) ∈ store := by
  induction store with
  | nil => simp [findMem?] at h
  | cons q rest ih =>
    by_cases hq : q.1 = uid
    · rw [findMem?, if_pos hq] at h
      have : q = (uid, m) := by
        obtain ⟨q1, q2⟩ := q
        simp only at hq
        simp only [Option.some_inj] at h
        rw [hq, h]
      rw [← this]
      exact List.mem_cons_self q rest
    · rw [findMem?, if_neg hq] at h
      exact List.mem_cons_of_mem q (ih h)

theorem findMem?_of_mem_nodup {store : Store} {q : Int × UserMemory}
    (hnd : (store.map Prod.fst).Nodup) (hq : q ∈ store) :
    findMem? store q.1 = some q.2 := by
  induction store with
  | nil => simp at hq
  | cons p rest ih =>
    rcases List.mem_cons.mp hq with hh | ht
    · rw [hh, findMem?, if_pos rfl]
    · have hp1 : ¬p.1 = q.1 := by
        intro hc
        have : q.1 ∈ rest.map Prod.fst := List.mem_map_of_mem Prod.fst ht
        rw [List.map_cons, List.nodup_cons] at hnd
        exact hnd.1 (hc ▸ this)
      rw [findMem?, if_neg hp1]
      exact ih (List.nodup_cons.mp (by rw [List.map_cons] at hnd; exact hnd)).2 ht

theorem findMem?_none_filter {store : Store} {uid : Int}
    (h : findMem? store uid = none) (p : Int × UserMemory → Bool) :
    findMem? (store.filter p) uid = none := by
  induction store with
  | nil => simp [findMem?]
  | cons q rest ih =>
    by_cases hq : q.1 = uid
    · rw [findMem?, if_pos hq] at h
      exact absurd h (by simp)
    · rw [findMem?, if_neg hq] at h
      by_cases hp : p q
      · rw [List.filter_cons_of_pos hp, findMem?, if_neg hq]
        exact ih h
      · rw [List.filter_cons_of_neg (by simpa using hp)]
        exact ih h

theorem findMem?_filter {store : Store} {uid : Int} {m : UserMemory}
    (hnd : (store.map Prod.fst).Nodup)
    (h : findMem? store uid = some m) (p : Int × UserMemory → Bool) :
    findMem? (store.filter p) uid =
      if p (uid, m) then some m else none := by
  induction store with
  | nil => simp [findMem?] at h
  | cons q rest ih =>
    have hnd' : (rest.map Prod.fst).Nodup :=
      (List.nodup_cons.mp (by rw [List.map_cons] at hnd; exact hnd)).2
    by_cases hq : q.1 = uid
    · rw [findMem?, if_pos hq] at h
      have hqe : q = (uid, m) := by
        obtain ⟨q1, q2⟩ := q
        simp only at hq
        simp only [Option.some_inj] at h
        rw [hq, h]
      have hrest : findMem? rest uid = none := by
        rw [List.map_cons, List.nodup_cons] at hnd
        cases hfr : findMem? rest uid with
        | none => rfl
        | some m' =>
          have : (uid, m') ∈ rest := findMem?_some_mem hfr
          have : uid ∈ rest.map Prod.fst := List.mem_map_of_mem Prod.fst this
          exact absurd (hq ▸ this) hnd.1
      by_cases hp : p q
      · rw [List.filter_cons_of_pos hp, findMem?, if_pos hq]
        rw [hqe] at hp
        rw [if_pos hp, Option.some_inj]
        exact congrArg Prod.snd hqe
      · rw [List.filter_cons_of_neg (by simpa using hp)]
        rw [hqe] at hp
        rw [if_neg (by simpa using hp)]
        exact findMem?_none_filter hrest p
    · rw [findMem?, if_neg hq] at h
      by_cases hp : p q
      · rw [List.filter_cons_of_pos hp, findMem?, if_neg hq]
        exact ih hnd' h
      · rw [List.filter_cons_of_neg (by simpa using hp)]
        exact ih hnd' h

theorem foldl_storeDel (keys : List Int) :
    ∀ store : Store, List.foldl storeDel store keys =
      store.filter (fun p => decide (p.1 ∉ keys)) := by
  induction keys with
  | nil =>
    intro store
    simp [storeDel, List.filter_eq_self]
  | cons k ks ih =>
    intro store
    simp only [List.foldl_cons]
    rw [ih, storeDel, List.filter_filter]
    apply List.filter_congr
    intro p _
    by_cases h1 : p.1 = k <;> by_cases h2 : p.1 ∈ ks <;>
      simp [h1, h2, List.mem_cons]

theorem mem_map_fst_filter_iff {store : Store} {uid : Int} {m : UserMemory}
    (hnd : (store.map Prod.fst).Nodup)
    (h : findMem? store uid = some m) (pred : Int × UserMemory → Bool) :
    uid ∈ (store.filter pred).map Prod.fst ↔ pred (uid, m) = true := by
  constructor
  · intro hin
    obtain ⟨q, hq, hq1⟩ := List.mem_map.mp hin
    have hqs : q ∈ store := List.mem_of_mem_filter hq
    have hpq : pred q = true := List.of_mem_filter hq
    have : findMem? store q.1 = some q.2 := findMem?_of_mem_nodup hnd hqs
    rw [hq1, h] at this
    have hq2 : q.2 = m := (Option.some_inj.mp this).symm
    have hqe : q = (uid, m) := by
      obtain ⟨q1, q2⟩ := q
      simp only at hq1 hq2
      rw [hq1, hq2]
    rw [← hqe]
    exact hpq
  · intro hp
    have hmem : (uid, m) ∈ store := findMem?_some_mem h
    have : (uid, m) ∈ store.filter pred := List.mem_filter.mpr ⟨hmem, hp⟩
    exact List.mem_map.mpr ⟨(uid, m), this, rfl⟩

/-- C4: the retention sweep removes exactly the records whose `last_seen`
is strictly positive and strictly below `now - TTL`: in particular a
record one second past the cutoff (with positive `last_seen`) is gone, one
one second inside the cutoff survives, and one that never interacted
(`last_seen = 0`) survives regardless; and the store is saved exactly when
at least one record was removed. -/
theorem C4_prune_exact (store : Store) (now : ℚ)
    (hnd : (store.map Prod.fst).Nodup) :
    (∀ uid m, findMem? store uid = some m →
      findMem? (prune_old_memories store now).1 uid =
        if m.last_seen < now - (MEMORY_TTL_DAYS * 86400 : ℚ) ∧ 0 < m.last_seen
        then none else some m) ∧
    (∀ uid m, findMem? store uid = some m →
      m.last_seen = now - (MEMORY_TTL_DAYS * 86400 : ℚ) - 1 →
      0 < m.last_seen →
      findMem? (prune_old_memories store now).1 uid = none) ∧
    (∀ uid m, findMem? store uid = some m →
      m.last_seen = now - (MEMORY_TTL_DAYS * 86400 : ℚ) + 1 →
      findMem? (prune_old_memories store now).1 uid = some m) ∧
    (∀ uid m, findMem? store uid = some m → m.last_seen = 0 →
      findMem? (prune_old_memories store now).1 uid = some m) ∧
    ((prune_old_memories store now).2 = true ↔
      ∃ p ∈ store, p.2.last_seen < now - (MEMORY_TTL_DAYS * 86400 : ℚ) ∧
        0 < p.2.last_seen) := by
  have hmain : ∀ uid m, findMem? store uid = some m →
      findMem? (prune_old_memories store now).1 uid =
        if m.last_seen < now - (MEMORY_TTL_DAYS * 86400 : ℚ) ∧ 0 < m.last_seen
        then none else some m := by
    intro uid m h
    unfold prune_old_memories
    simp only
    rw [foldl_storeDel]
    rw [findMem?_filter hnd h]
    by_cases hc : m.last_seen < now - (MEMORY_TTL_DAYS * 86400 : ℚ) ∧
        0 < m.last_seen
    · rw [if_pos hc]
      rw [if_neg]
      simp only [decide_eq_true_eq, not_not]
      exact (mem_map_fst_filter_iff hnd h _).mpr (by simpa using hc)
    · rw [if_neg hc]
      rw [if_pos]
      simp only [decide_eq_true_eq]
      intro hin
      exact hc (by simpa using (mem_map_fst_filter_iff hnd h _).mp hin)
  refine ⟨hmain, ?_, ?_, ?_, ?_⟩
  · intro uid m h hseen hpos
    rw [hmain uid m h, if_pos ⟨by rw [hseen]; linarith, hpos⟩]
  · intro uid m h hseen
    rw [hmain uid m h, if_neg]
    intro hc
    rw [hseen] at hc
    linarith [hc.1]
  · intro uid m h hzero
    rw [hmain uid m h, if_neg]
    intro hc
    rw [hzero] at hc
    exact lt_irrefl 0 hc.2
  · unfold prune_old_memories
    simp only
    rw [Bool.not_eq_eq_eq_not, Bool.not_true, List.isEmpty_eq_false,
      Ne, List.map_eq_nil_iff, List.filter_eq_nil_iff]
    push_neg
    constructor
    · rintro ⟨p, hp, hpred⟩
      exact ⟨p, hp, by simpa using hpred⟩
    · rintro ⟨p, hp, hpred⟩
      exact ⟨p, hp, by simpa using hpred⟩

/-- Witness for C4 on a concrete three-user store. -/
theorem C4_prune_exact_witness :
    (([((1 : Int), ({ user_id := 1, last_seen := 1 } : UserMemory)),
       (2, { user_id := 2, last_seen := 3 }),
       (3, { user_id := 3, last_seen := 0 })] : Store).map Prod.fst).Nodup ∧
    findMem? (prune_old_memories
      [(1, { user_id := 1, last_seen := 1 }),
       (2, { user_id := 2, last_seen := 3 }),
       (3, { user_id := 3, last_seen := 0 })] 2592002).1 1 = none ∧
    findMem? (prune_old_memories
      [(1, { user_id := 1, last_seen := 1 }),
       (2, { user_id := 2, last_seen := 3 }),
       (3, { user_id := 3, last_seen := 0 })] 2592002).1 3 =
      some { user_id := 3, last_seen := 0 } := by
  have hnd : (([((1 : Int), ({ user_id := 1, last_seen := 1 } : UserMemory)),
      (2, { user_id := 2, last_seen := 3 }),
      (3, { user_id := 3, last_seen := 0 })] : Store).map Prod.fst).Nodup := by
    decide
  have h := C4_prune_exact
    [(1, { user_id := 1, last_seen := 1 }),
     (2, { user_id := 2, last_seen := 3 }),
     (3, { user_id := 3, last_seen := 0 })] 2592002 hnd
  refine ⟨hnd, ?_, ?_⟩
  · refine h.2.1 1 { user_id := 1, last_seen := 1 } rfl ?_ (by norm_num)
    show (1 : ℚ) = 2592002 - (MEMORY_TTL_DAYS * 86400 : ℚ) - 1
    norm_num [MEMORY_TTL_DAYS]
  · exact h.2.2.2.1 3 { user_id := 3, last_seen := 0 } rfl rfl

-- ── Round-trip lemmas for the persistence codec ────────────────────────

theorem storeSet_fresh {store : Store} {uid : Int} (mem : UserMemory)
    (h : findMem? store uid = none) :
    storeSet store uid mem = store ++ [(uid, mem)] := by
  induction store with
  | nil => rfl
  | cons p rest ih =>
    by_cases hp : p.1 = uid
    · rw [findMem?, if_pos hp] at h
      exact absurd h (by simp)
    · rw [findMem?, if_neg hp] at h
      rw [storeSet, if_neg hp, ih h, List.cons_append]

theorem findMem?_append_none {s t : Store} {uid : Int}
    (hs : findMem? s uid = none) :
    findMem? (s ++ t) uid = findMem? t uid := by
  induction s with
  | nil => rfl
  | cons p rest ih =>
    by_cases hp : p.1 = uid
    · rw [findMem?, if_pos hp] at hs
      exact absurd hs (by simp)
    · rw [findMem?, if_neg hp] at hs
      rw [List.cons_append, findMem?, if_neg hp]
      exact ih hs

theorem blobToMem_asdict (uid : Int) (m : UserMemory) :
    blobToMem uid (asdict m) 0 = { m with user_id := uid } := rfl

theorem load_entries_save_all (store : Store) :
    ∀ acc : Store, (∀ p ∈ store, findMem? acc p.1 = none) →
      (store.map Prod.fst).Nodup →
      load_entries acc (save_all store) =
        acc ++ store.map (fun p => (p.1, { p.2 with user_id := p.1 })) := by
  induction store with
  | nil =>
    intro acc _ _
    simp [save_all, load_entries]
  | cons p rest ih =>
    intro acc hfresh hnd
    have hsave : save_all (p :: rest) =
        (pyStr p.1, asdict p.2) :: save_all rest := rfl
    have hred : load_entries acc ((pyStr p.1, asdict p.2) :: save_all rest) =
        load_entries (storeSet acc p.1 (blobToMem p.1 (asdict p.2) 0))
          (save_all rest) := by
      rw [load_entries, pyInt?_pyStr]
    rw [hsave, hred]
    have hstep : storeSet acc p.1 (blobToMem p.1 (asdict p.2) 0) =
        acc ++ [(p.1, { p.2 with user_id := p.1 })] := by
      rw [blobToMem_asdict]
      exact storeSet_fresh _ (hfresh p (List.mem_cons_self p rest))
    rw [hstep]
    have hnd' : (rest.map Prod.fst).Nodup :=
      (List.nodup_cons.mp (by rw [List.map_cons] at hnd; exact hnd)).2
    have hfresh' : ∀ q ∈ rest,
        findMem? (acc ++ [(p.1, { p.2 with user_id := p.1 })]) q.1 = none := by
      intro q hq
      have hqa : findMem? acc q.1 = none :=
        hfresh q (List.mem_cons_of_mem p hq)
      have hqne : ¬p.1 = q.1 := by
        intro hc
        rw [List.map_cons, List.nodup_cons] at hnd
        exact hnd.1 (hc ▸ List.mem_map_of_mem Prod.fst hq)
      rw [findMem?_append_none hqa, findMem?, if_neg hqne]
      rfl
    rw [ih _ hfresh' hnd', List.append_assoc]
    rfl

theorem findMem?_map_keyed (g : Int → UserMemory → UserMemory)
    (store : Store) (uid : Int) :
    findMem? (store.map (fun p => (p.1, g p.1 p.2))) uid =
      (findMem? store uid).map (g uid) := by
  induction store with
  | nil => rfl
  | cons p rest ih =>
    by_cases hp : p.1 = uid
    · rw [List.map_cons, findMem?, findMem?, if_pos hp, if_pos hp, hp]
      rfl
    · rw [List.map_cons, findMem?, findMem?, if_neg hp, if_neg hp]
      exact ih

/-- C3: saving a non-empty store (with unique user ids, as holds for any
Python dict) and loading the result back reproduces an equivalent store:
the same user ids in the same order, and per user the same `username`,
`recent_messages`, `long_term_notes` and `last_seen`. -/
theorem C3_save_load_roundtrip (store : Store) (_hne : store ≠ [])
    (hnd : (store.map Prod.fst).Nodup) :
    (load_all (FileData.dict (save_all store))).map Prod.fst =
      store.map Prod.fst ∧
    ∀ uid m, findMem? store uid = some m →
      ∃ m', findMem? (load_all (FileData.dict (save_all store))) uid = some m' ∧
        m'.username = m.username ∧ m'.recent_messages = m.recent_messages ∧
        m'.long_term_notes = m.long_term_notes ∧
        m'.last_seen = m.last_seen := by
  have hload : load_all (FileData.dict (save_all store)) =
      store.map (fun p => (p.1, { p.2 with user_id := p.1 })) := by
    have h := load_entries_save_all store [] (fun p _ => rfl) hnd
    simpa [load_all] using h
  constructor
  · rw [hload, List.map_map]
    rfl
  · intro uid m h
    rw [hload, findMem?_map_keyed (fun k mm => { mm with user_id := k }), h]
    exact ⟨{ m with user_id := uid }, rfl, rfl, rfl, rfl, rfl⟩

/-- Sample record used by concrete witnesses. -/
def samMem : UserMemory := { user_id := 5, username := "sam", last_seen := 7 }

/-- Witness for C3 on a concrete one-user store. -/
theorem C3_save_load_roundtrip_witness :
    (([((5 : Int), samMem)] : Store) ≠ []) ∧
    ∃ m', findMem? (load_all (FileData.dict (save_all [(5, samMem)]))) 5 =
          some m' ∧
      m'.username = "sam" ∧ m'.last_seen = (7 : ℚ) := by
  refine ⟨by simp, ?_⟩
  have h := (C3_save_load_roundtrip [(5, samMem)] (by simp) (by decide)).2 5
    samMem rfl
  obtain ⟨m', hm', hu, _, _, hl⟩ := h
  exact ⟨m', hm', hu, hl⟩

-- ── C5: load-failure behaviour ─────────────────────────────────────────

/-- C5 counterexample: a backing file that is valid JSON but corrupt as a
snapshot (its second key "x" is not an integer) does not yield an empty
store — the record processed before the failing key stays loaded, so the
claim's "no partially loaded Records" is false on the code. -/
theorem C5_corrupt_load_counterexample :
    load_all (FileData.dict
      [(['1'], { username := some "alice" }), (['x'], {})]) ≠ [] ∧
    findMem? (load_all (FileData.dict
      [(['1'], { username := some "alice" }), (['x'], {})])) 1 =
      some { user_id := 1, username := "alice" } := by
  constructor
  · decide
  · decide

/-- C5 (amended): a missing backing file, a file `json.load` rejects, and a
file parsing to a non-object all leave the startup store empty and never
fail startup; but a file parsing to an object is loaded entry by entry,
and a malformed key aborts the loop keeping exactly the records loaded
before it — a partial load. -/
theorem C5_load_failure_recovery (pre : List (List Char × Blob))
    (k : List Char) (b : Blob) (post : List (List Char × Blob))
    (hk : pyInt? k = none) :
    load_all FileData.missing = [] ∧
    load_all FileData.unreadable = [] ∧
    load_all FileData.nonDict = [] ∧
    load_all (FileData.dict (pre ++ (k, b) :: post)) =
      load_all (FileData.dict pre) := by
  refine ⟨rfl, rfl, rfl, ?_⟩
  show load_entries [] (pre ++ (k, b) :: post) = load_entries [] pre
  suffices h : ∀ acc : Store,
      load_entries acc (pre ++ (k, b) :: post) = load_entries acc pre by
    exact h []
  induction pre with
  | nil =>
    intro acc
    simp only [List.nil_append, load_entries, hk]
  | cons e rest ih =>
    intro acc
    obtain ⟨es, eb⟩ := e
    simp only [List.cons_append, load_entries]
    cases hpe : pyInt? es with
    | none => rfl
    | some uid => exact ih _

/-- Witness for C5 (amended) at a concrete file. -/
theorem C5_load_failure_recovery_witness :
    pyInt? ['x'] = none ∧
    load_all (FileData.dict
      [(['1'], { username := some "alice" }), (['x'], ({} : Blob))]) =
      load_all (FileData.dict [(['1'], { username := some "alice" })]) := by
  refine ⟨by decide, ?_⟩
  exact (C5_load_failure_recovery [(['1'], { username := some "alice" })]
    ['x'] {} [] (by decide)).2.2.2

-- ── C6: save writes the backing file in place ──────────────────────────

/-- Abstract file operations, enough to express the write-temp-then-rename
pattern the spec mandates. -/
inductive FileOp
  | openWrite (path : String)
  | writeAll (path : String)
  | closeFile
  | rename (src dst : String)
deriving DecidableEq

/-- memory.py lines 89-92 as a file-operation trace: `open(MEMORY_FILE, "w")`
truncates the backing file in place, `json.dump` writes into it, and the
`with` block closes it.  No temporary path and no rename occur. -/
def save_all_ops : List FileOp :=
  [FileOp.openWrite MEMORY_FILE, FileOp.writeAll MEMORY_FILE,
   FileOp.closeFile]

/-- Whether a file operation is a rename. -/
def isRenameOp : FileOp → Bool
  | FileOp.rename _ _ => true
  | _ => false

/-- C6 (code divergence): `save_all` performs no rename at all and its very
first operation opens the backing file itself for writing (truncating it),
so the write-temp-and-rename pattern the claim describes is absent and a
crash mid-write can leave a truncated backing file. -/
theorem C6_save_not_atomic :
    List.filter isRenameOp save_all_ops = [] ∧
    save_all_ops.head? = some (FileOp.openWrite MEMORY_FILE) := by
  exact ⟨rfl, rfl⟩

-- ── C7: import validation ──────────────────────────────────────────────

theorem import_entries_count (entries : List (List Char × Blob)) :
    ∀ (store : Store) (count : Nat),
      (import_entries store count entries).2 =
        count + (entries.filter (fun e => (pyInt? e.1).isSome)).length := by
  induction entries with
  | nil =>
    intro store count
    simp [import_entries]
  | cons e rest ih =>
    intro store count
    obtain ⟨es, eb⟩ := e
    rw [import_entries]
    cases hpe : pyInt? es with
    | none =>
      rw [ih]
      simp [List.filter_cons, hpe]
    | some uid =>
      rw [ih]
      simp [List.filter_cons, hpe]
      omega

/-- C7: single-user import succeeds exactly on payloads that parse as a
JSON object containing a `user_id` field; invalid JSON and objects lacking
`user_id` are rejected with an error result and do not touch the store.
Bulk import of an object reports the number of entries whose key parses as
an integer, skipping malformed keys without raising; in particular a
single-entry payload whose only key is malformed imports nothing, returns
count 0 and no error, and leaves the store unchanged. -/
theorem C7_import_validation :
    (∀ (store : Store) (uid : Int) (now : ℚ),
      (import_user_memory store uid Payload.invalid now).1 = store ∧
      (import_user_memory store uid Payload.invalid now).2 ≠ "ok") ∧
    (∀ (store : Store) (uid : Int) (blob : Blob) (now : ℚ),
      blob.user_id = none →
      (import_user_memory store uid (Payload.dict blob) now).1 = store ∧
      (import_user_memory store uid (Payload.dict blob) now).2 ≠ "ok") ∧
    (∀ (store : Store) (uid : Int) (blob : Blob) (now : ℚ),
      (import_user_memory store uid (Payload.dict blob) now).2 = "ok" ↔
        blob.user_id.isSome = true) ∧
    (∀ store : Store, (import_all_memories store BulkPayload.invalid).1 = store ∧
      (import_all_memories store BulkPayload.invalid).2.1 = 0) ∧
    (∀ (store : Store) (entries : List (List Char × Blob)),
      (import_all_memories store (BulkPayload.dict entries)).2.1 =
        (entries.filter (fun e => (pyInt? e.1).isSome)).length) ∧
    (∀ (store : Store) (blob : Blob),
      import_all_memories store (BulkPayload.dict [(['a', 'b', 'c'], blob)]) =
        (store, 0, "")) := by
  refine ⟨?_, ?_, ?_, ?_, ?_, ?_⟩
  · intro store uid now
    exact ⟨rfl, by simp [import_user_memory]⟩
  · intro store uid blob now h
    have hred : import_user_memory store uid (Payload.dict blob) now =
        if blob.user_id.isSome = true
        then (storeSet store uid (blobToMem uid blob now), "ok")
        else (store, "Unrecognized format") := rfl
    rw [hred, h]
    simp
  · intro store uid blob now
    have hred : import_user_memory store uid (Payload.dict blob) now =
        if blob.user_id.isSome = true
        then (storeSet store uid (blobToMem uid blob now), "ok")
        else (store, "Unrecognized format") := rfl
    rw [hred]
    cases h : blob.user_id with
    | none => simp [h]
    | some v => simp [h]
  · intro store
    exact ⟨rfl, rfl⟩
  · intro store entries
    unfold import_all_memories
    simp only
    rw [import_entries_count]
    simp
  · intro store blob
    have hk : pyInt? ['a', 'b', 'c'] = none := by decide
    unfold import_all_memories
    simp only
    rw [import_entries, hk]
    rfl

/-- Witness for C7 at concrete rejected payloads. -/
theorem C7_import_validation_witness :
    (({} : Blob).user_id = none) ∧
    (import_user_memory [] 5 (Payload.dict {}) 0).1 = [] ∧
    (import_user_memory [] 5 (Payload.dict {}) 0).2 ≠ "ok" := by
  have h := C7_import_validation.2.1 [] 5 {} 0 rfl
  exact ⟨rfl, h.1, h.2⟩

-- ── C10: import keying and last_seen defaults ──────────────────────────

/-- C10: an accepted single-user import stores the record under the
`user_id` argument and stamps the record's `user_id` field with that
argument, ignoring whatever value the payload's own `user_id` field held;
a payload lacking `last_seen` defaults it to the current time on the
single-user path but to `0.0` on the bulk path. -/
theorem C10_import_key_defaults (store : Store) (uid : Int) (blob : Blob)
    (now : ℚ) (h : blob.user_id.isSome = true) :
    (findMem? (import_user_memory store uid (Payload.dict blob) now).1 uid =
        some (blobToMem uid blob now) ∧
      (blobToMem uid blob now).user_id = uid ∧
      (blob.last_seen = none → (blobToMem uid blob now).last_seen = now)) ∧
    (findMem? (import_all_memories store
          (BulkPayload.dict [(pyStr uid, blob)])).1 uid =
        some (blobToMem uid blob 0) ∧
      (blob.last_seen = none → (blobToMem uid blob 0).last_seen = 0)) := by
  constructor
  · refine ⟨?_, rfl, ?_⟩
    · have hred : import_user_memory store uid (Payload.dict blob) now =
          if blob.user_id.isSome = true
          then (storeSet store uid (blobToMem uid blob now), "ok")
          else (store, "Unrecognized format") := rfl
      rw [hred, if_pos h]
      exact findMem?_storeSet_self store uid _
    · intro hnone
      unfold blobToMem
      rw [hnone]
      rfl
  · constructor
    · unfold import_all_memories
      simp only
      have hred : import_entries store 0 [(pyStr uid, blob)] =
          (storeSet store uid (blobToMem uid blob 0), 1) := by
        rw [import_entries, pyInt?_pyStr]
        rfl
      rw [hred]
      exact findMem?_storeSet_self store uid _
    · intro hnone
      unfold blobToMem
      rw [hnone]
      rfl

/-- Witness for C10 at a payload whose own user_id field differs from
the target user id. -/
theorem C10_import_key_defaults_witness :
    (({ user_id := some 99 } : Blob).user_id.isSome = true) ∧
    findMem? (import_user_memory [] 7
        (Payload.dict { user_id := some 99 }) 3).1 7 =
      some (blobToMem 7 { user_id := some 99 } 3) ∧
    (blobToMem 7 ({ user_id := some 99 } : Blob) 3).user_id = 7 := by
  have h := C10_import_key_defaults [] 7 { user_id := some 99 } 3 rfl
  exact ⟨rfl, h.1.1, h.1.2.1⟩

end CatMemory
